import Mathlib

/-!
# Verification of the chess-position server core

Shallow embedding of `src/main.rs` (Wojtechnology/chess): the movement rule
tables, the ray walker (`Walk`), legal-move computation (`Piece::valid_moves`),
move application (`Board::step`), board serialization (`board_as_str`) and the
coordinate parser (`location_from_string`), together with theorems settling the
specification claims.

Machine integers of the source (`u8`, `i8`) are modelled as `Nat` / `Int`; all
values reached from in-bounds coordinates stay far below the overflow range, and
the walker's guards rule out underflow exactly as the source's guards do.
-/

/-- Piece kind (`piece::Type` in the source; `Type` is reserved in Lean). -/
inductive PieceType where
  | Pawn
  | Bishop
  | Knight
  | Rook
  | Queen
  | King
deriving DecidableEq, Repr

/-- Piece color (`piece::Color`). -/
inductive Color where
  | White
  | Black
deriving DecidableEq, Repr

/-- A piece: `piece::Piece { tpe, color }`. -/
structure Piece where
  tpe : PieceType
  color : Color
deriving DecidableEq, Repr

/-- Board coordinate (`Location { x, y }`); the source uses `u8` fields, which
we model as `Nat`. `x` is the file, `y` the rank. -/
structure Location where
  x : Nat
  y : Nat
deriving DecidableEq, Repr

/-- In-bounds predicate for a coordinate: both components on the 0..7 grid. -/
def Location.inBounds (l : Location) : Prop := l.x < 8 ∧ l.y < 8

instance (l : Location) : Decidable l.inBounds := by
  unfold Location.inBounds; infer_instance

/-- `Location::to_string`: file letter (`x + 97` as a character) followed by
`y + 1` in decimal. -/
def Location.to_string (l : Location) : String :=
  String.mk [Char.ofNat (l.x + 97)] ++ toString (l.y + 1)

/-- `WalkStrategy { dx, dy, max_steps }`: a direction vector (`i8` in the
source, modelled as `Int`) and a step budget. -/
structure WalkStrategy where
  dx : Int
  dy : Int
  max_steps : Nat
deriving DecidableEq, Repr

/-- `WalkStrategy::new`. -/
def WalkStrategy.new (dx dy : Int) (max_steps : Nat) : WalkStrategy :=
  { dx := dx, dy := dy, max_steps := max_steps }

/-- The iterator state `Walk { dx, dy, steps_left, cur }`. -/
structure Walk where
  dx : Int
  dy : Int
  steps_left : Nat
  cur : Location
deriving DecidableEq, Repr

/-- `WalkStrategy::to_walk`. -/
def WalkStrategy.to_walk (s : WalkStrategy) (start : Location) : Walk :=
  { dx := s.dx, dy := s.dy, steps_left := s.max_steps, cur := start }

/-- The full sequence produced by repeatedly calling `Walk::next` (the
`Iterator` impl): while `steps_left` is nonzero, stop if stepping by `dx`/`dy`
would leave the grid (the four guards, in source order), otherwise decrement
the budget, advance `cur` by `(dx, dy)` and yield the new `cur`. -/
def walkGo (dx dy : Int) : Nat → Location → List Location
  | 0, _ => []
  | Nat.succ n, cur =>
    if dx < 0 ∧ (-dx).toNat > cur.x then []
    else if dx > 0 ∧ dx.toNat + cur.x ≥ 8 then []
    else if dy < 0 ∧ (-dy).toNat > cur.y then []
    else if dy > 0 ∧ dy.toNat + cur.y ≥ 8 then []
    else
      let next : Location :=
        { x := ((cur.x : Int) + dx).toNat, y := ((cur.y : Int) + dy).toNat }
      next :: walkGo dx dy n next

/-- All locations yielded by a `Walk` when drained as an iterator. -/
def Walk.run (w : Walk) : List Location :=
  walkGo w.dx w.dy w.steps_left w.cur

/-- The board: `Board([[Option<Piece>; 8]; 8])`, indexed `cells[y][x]`
(rank-major, as in the source's `board.0[loc.y][loc.x]`). -/
structure Board where
  cells : Fin 8 → Fin 8 → Option Piece

instance : DecidableEq Board := fun a b =>
  decidable_of_iff (a.cells = b.cells) (by cases a; cases b; simp)

/-- Read the cell at a location (`board.0[l.y as usize][l.x as usize]`). The
source would panic on an out-of-bounds index; all uses are in bounds, and we
return `none` outside the grid. -/
def Board.get (b : Board) (l : Location) : Option Piece :=
  if h : l.y < 8 ∧ l.x < 8 then b.cells ⟨l.y, h.1⟩ ⟨l.x, h.2⟩ else none

/-- Write the cell at a location (`board.0[l.y as usize][l.x as usize] = v`). -/
def Board.set (b : Board) (l : Location) (v : Option Piece) : Board :=
  ⟨fun yy xx => if (xx : Nat) = l.x ∧ (yy : Nat) = l.y then v else b.cells yy xx⟩

/-- `Piece::strategies_pawn`: a single forward ray, two steps long from the
starting rank (rank 1 for White, rank 6 for Black), one step otherwise. -/
def Piece.strategies_pawn (p : Piece) (from_ : Location) : List WalkStrategy :=
  match p.color with
  | Color.White =>
    if from_.y = 1 then [WalkStrategy.new 0 1 2] else [WalkStrategy.new 0 1 1]
  | Color.Black =>
    if from_.y = 6 then [WalkStrategy.new 0 (-1) 2] else [WalkStrategy.new 0 (-1) 1]

/-- The movement rule table: the strategy list chosen in `Piece::valid_moves`
by matching on the piece type. -/
def Piece.strategies (p : Piece) (from_ : Location) : List WalkStrategy :=
  match p.tpe with
  | PieceType.Pawn => p.strategies_pawn from_
  | PieceType.Bishop =>
    [WalkStrategy.new (-1) (-1) 7, WalkStrategy.new (-1) 1 7,
     WalkStrategy.new 1 (-1) 7, WalkStrategy.new 1 1 7]
  | PieceType.Knight =>
    [WalkStrategy.new (-2) (-1) 1, WalkStrategy.new (-2) 1 1,
     WalkStrategy.new (-1) (-2) 1, WalkStrategy.new (-1) 2 1,
     WalkStrategy.new 1 (-2) 1, WalkStrategy.new 1 2 1,
     WalkStrategy.new 2 (-1) 1, WalkStrategy.new 2 1 1]
  | PieceType.Rook =>
    [WalkStrategy.new (-1) 0 7, WalkStrategy.new 0 (-1) 7,
     WalkStrategy.new 0 1 7, WalkStrategy.new 1 0 7]
  | PieceType.Queen =>
    [WalkStrategy.new (-1) (-1) 7, WalkStrategy.new (-1) 1 7,
     WalkStrategy.new 1 (-1) 7, WalkStrategy.new 1 1 7,
     WalkStrategy.new (-1) 0 7, WalkStrategy.new 0 (-1) 7,
     WalkStrategy.new 0 1 7, WalkStrategy.new 1 0 7]
  | PieceType.King =>
    [WalkStrategy.new (-1) (-1) 1, WalkStrategy.new (-1) 1 1,
     WalkStrategy.new 1 (-1) 1, WalkStrategy.new 1 1 1,
     WalkStrategy.new (-1) 0 1, WalkStrategy.new 0 (-1) 1,
     WalkStrategy.new 0 1 1, WalkStrategy.new 1 0 1]

/-- The inner loop of `Piece::valid_moves` over one ray: if the square holds a
same-color piece, `break` without pushing; otherwise push the square and keep
walking (note: the source does NOT break after a square holding an
opposite-color piece). -/
def rayDests (p : Piece) (b : Board) : List Location → List Location
  | [] => []
  | dest :: rest =>
    match b.get dest with
    | some q => if q.color = p.color then [] else dest :: rayDests p b rest
    | none => dest :: rayDests p b rest

/-- `Piece::valid_moves`: walk every strategy's ray from `from_`, collecting
destinations with the blocking rule of `rayDests`, in strategy order. -/
def Piece.valid_moves (p : Piece) (b : Board) (from_ : Location) : List Location :=
  (p.strategies from_).flatMap fun s => rayDests p b ((s.to_walk from_).run)

/-- The two error cases of `Board::step`; the source carries them as strings,
rendered by `MoveError.render`. -/
inductive MoveError where
  | emptySource (l : Location)
  | illegalDestination
deriving DecidableEq, Repr

instance {ε α : Type} [DecidableEq ε] [DecidableEq α] : DecidableEq (Except ε α) := fun a b =>
  match a, b with
  | Except.error e, Except.error e2 => decidable_of_iff (e = e2) (by simp)
  | Except.error _, Except.ok _ => isFalse (fun h => Except.noConfusion h)
  | Except.ok _, Except.error _ => isFalse (fun h => Except.noConfusion h)
  | Except.ok v, Except.ok v2 => decidable_of_iff (v = v2) (by simp)

/-- The exact error strings of the source: `"No piece at {from}"` and
`"Invalid move"`. -/
def MoveError.render : MoveError → String
  | MoveError.emptySource l => "No piece at " ++ l.to_string
  | MoveError.illegalDestination => "Invalid move"

/-- `Board::step(&mut self, from, to) -> Result<(), String>`: the result paired
with the board after the call (errors return early, before any write; on
success the source clears `from` and then writes the piece at `to`). -/
def Board.step (b : Board) (from_ to_ : Location) : Except MoveError Unit × Board :=
  match b.get from_ with
  | none => (Except.error (MoveError.emptySource from_), b)
  | some piece =>
    if (piece.valid_moves b from_).any (fun dest => dest == to_) then
      (Except.ok (), (b.set from_ none).set to_ (some piece))
    else
      (Except.error MoveError.illegalDestination, b)

/-- `cell_as_str`: empty marker for an empty cell, otherwise color prefix
letter followed by the piece-type letter. -/
def cell_as_str : Option Piece → String
  | none => ""
  | some p =>
    let c := match p.color with
      | Color.White => "w"
      | Color.Black => "b"
    let t := match p.tpe with
      | PieceType.Pawn => "P"
      | PieceType.Bishop => "B"
      | PieceType.Knight => "N"
      | PieceType.Rook => "R"
      | PieceType.Queen => "Q"
      | PieceType.King => "K"
    c ++ t

/-- The 64-entry cell list built by `board_as_str`'s nested loops: ranks 0..7
outer, files 0..7 inner (row-major). -/
def board_cells (b : Board) : List String :=
  (List.finRange 8).flatMap fun i => (List.finRange 8).map fun j => cell_as_str (b.cells i j)

/-- `board_as_str`: the 64 cell strings joined with commas. -/
def board_as_str (b : Board) : String :=
  String.intercalate "," (board_cells b)

/-- `Board::new`: the standard initial layout. -/
def Board.new : Board :=
  ⟨fun yy xx =>
    match (yy : Nat) with
    | 0 => some ⟨#[PieceType.Rook, PieceType.Knight, PieceType.Bishop, PieceType.Queen,
                   PieceType.King, PieceType.Bishop, PieceType.Knight, PieceType.Rook].get xx,
                 Color.White⟩
    | 1 => some ⟨PieceType.Pawn, Color.White⟩
    | 6 => some ⟨PieceType.Pawn, Color.Black⟩
    | 7 => some ⟨#[PieceType.Rook, PieceType.Knight, PieceType.Bishop, PieceType.Queen,
                   PieceType.King, PieceType.Bishop, PieceType.Knight, PieceType.Rook].get xx,
                 Color.Black⟩
    | _ => none⟩

/-- `u8::from_str` as used by `location_from_string`: a nonempty string of
decimal digits whose value fits in `0..=255`; anything else fails (the source
`unwrap`s the failure). -/
def parse_u8 (s : String) : Option Nat :=
  let ds := s.data
  if ds ≠ [] ∧ ds.all Char.isDigit then
    let n := ds.foldl (fun acc c => acc * 10 + (c.toNat - 48)) 0
    if n ≤ 255 then some n else none
  else none

/-- `location_from_string`: parse the integer and build
`Location { x: i % 8, y: i / 8 }`; `none` models the source's panic on an
unparsable string. -/
def location_from_string (s : String) : Option Location :=
  (parse_u8 s).map fun i => { x := i % 8, y := i / 8 }

/-- `get_from_to`: look up the `from` and `to` query arguments and convert
each with `location_from_string`. -/
def get_from_to (query_args : List (String × String)) : Option (Location × Location) :=
  match query_args.lookup "from", query_args.lookup "to" with
  | some fs, some ts =>
    match location_from_string fs, location_from_string ts with
    | some f, some t => some (f, t)
    | _, _ => none
  | _, _ => none

/-! ## Auxiliary definitions for the claim statements -/

/-- Offset relation between consecutive walk positions. -/
def stepRel (dx dy : Int) (a b : Location) : Prop :=
  (b.x : Int) = (a.x : Int) + dx ∧ (b.y : Int) = (a.y : Int) + dy

/-- Occupancy indicator of one cell, for counting pieces. -/
def occInd (b : Board) (q : Fin 8 × Fin 8) : Nat :=
  if (b.cells q.1 q.2).isSome then 1 else 0

/-- Number of occupied cells of the board. -/
def countOccupied (b : Board) : Nat :=
  Finset.univ.sum (occInd b)

/-- The color letter of the serialization format. -/
def color_letter : Color → String
  | Color.White => "w"
  | Color.Black => "b"

/-- The piece-type letter of the serialization format. -/
def type_letter : PieceType → String
  | PieceType.Pawn => "P"
  | PieceType.Bishop => "B"
  | PieceType.Knight => "N"
  | PieceType.Rook => "R"
  | PieceType.Queen => "Q"
  | PieceType.King => "K"

/-- Board for C1: empty except a White Rook at (0, 0) and a Black Pawn at
(0, 3). -/
def c1Board : Board :=
  ⟨fun yy xx =>
    if (xx : Nat) = 0 ∧ (yy : Nat) = 0 then some ⟨PieceType.Rook, Color.White⟩
    else if (xx : Nat) = 0 ∧ (yy : Nat) = 3 then some ⟨PieceType.Pawn, Color.Black⟩
    else none⟩

/-- Board for the C6 counterexample: a White Pawn at (0, 1) facing a Black
Pawn at (0, 2); everything else empty. -/
def c6Board : Board :=
  ⟨fun yy xx =>
    if (xx : Nat) = 0 ∧ (yy : Nat) = 1 then some ⟨PieceType.Pawn, Color.White⟩
    else if (xx : Nat) = 0 ∧ (yy : Nat) = 2 then some ⟨PieceType.Pawn, Color.Black⟩
    else none⟩

/-- Board for the C6 amended witness: only a White Pawn at (0, 1). -/
def c6WitnessBoard : Board :=
  ⟨fun yy xx =>
    if (xx : Nat) = 0 ∧ (yy : Nat) = 1 then some ⟨PieceType.Pawn, Color.White⟩ else none⟩

/-- Board for C7: empty except a knight of color `c` at (x, y). -/
def knightBoard (c : Color) (x y : Nat) : Board :=
  ⟨fun yy xx =>
    if (xx : Nat) = x ∧ (yy : Nat) = y then some ⟨PieceType.Knight, c⟩ else none⟩

/-! ## Walk lemmas -/

lemma walkGo_length (dx dy : Int) (n : Nat) (c : Location) :
    (walkGo dx dy n c).length ≤ n := by
  induction n generalizing c with
  | zero => simp [walkGo]
  | succ n ih =>
    simp only [walkGo]
    split_ifs <;> simp
    exact ih _

lemma walkGo_chain (dx dy : Int) (n : Nat) (c : Location) :
    List.Chain (stepRel dx dy) c (walkGo dx dy n c) := by
  induction n generalizing c with
  | zero => simp [walkGo]
  | succ n ih =>
    simp only [walkGo]
    split_ifs with h1 h2 h3 h4
    · exact List.Chain.nil
    · exact List.Chain.nil
    · exact List.Chain.nil
    · exact List.Chain.nil
    · refine List.Chain.cons ⟨?_, ?_⟩ (ih _)
      · show ((((c.x : Int) + dx).toNat : Nat) : Int) = (c.x : Int) + dx
        omega
      · show ((((c.y : Int) + dy).toNat : Nat) : Int) = (c.y : Int) + dy
        omega

lemma walkGo_bounds (dx dy : Int) (n : Nat) (c : Location)
    (hx : c.x < 8) (hy : c.y < 8) :
    ∀ m ∈ walkGo dx dy n c, m.x < 8 ∧ m.y < 8 := by
  induction n generalizing c with
  | zero => simp [walkGo]
  | succ n ih =>
    simp only [walkGo]
    split_ifs with h1 h2 h3 h4
    · simp
    · simp
    · simp
    · simp
    · intro m hm
      have hnx : ((c.x : Int) + dx).toNat < 8 := by omega
      have hny : ((c.y : Int) + dy).toNat < 8 := by omega
      rcases List.mem_cons.mp hm with h | h
      · subst h; exact ⟨hnx, hny⟩
      · exact ih _ hnx hny m h

lemma walkGo_strict (dx dy : Int) (n : Nat) (c : Location) :
    ∀ m ∈ walkGo dx dy n c,
      (0 < dx → c.x < m.x) ∧ (dx < 0 → m.x < c.x) ∧
      (0 < dy → c.y < m.y) ∧ (dy < 0 → m.y < c.y) := by
  induction n generalizing c with
  | zero => simp [walkGo]
  | succ n ih =>
    simp only [walkGo]
    split_ifs with h1 h2 h3 h4
    · simp
    · simp
    · simp
    · simp
    · intro m hm
      rcases List.mem_cons.mp hm with h | h
      · subst h
        refine ⟨fun hd => ?_, fun hd => ?_, fun hd => ?_, fun hd => ?_⟩
        · show c.x < ((c.x : Int) + dx).toNat
          omega
        · show ((c.x : Int) + dx).toNat < c.x
          omega
        · show c.y < ((c.y : Int) + dy).toNat
          omega
        · show ((c.y : Int) + dy).toNat < c.y
          omega
      · have hrec := ih _ m h
        simp only at hrec
        refine ⟨fun hd => ?_, fun hd => ?_, fun hd => ?_, fun hd => ?_⟩
        · have := hrec.1 hd; omega
        · have := hrec.2.1 hd; omega
        · have := hrec.2.2.1 hd; omega
        · have := hrec.2.2.2 hd; omega

lemma walkGo_ne (dx dy : Int) (n : Nat) (c : Location)
    (hdir : ¬(dx = 0 ∧ dy = 0)) : ∀ m ∈ walkGo dx dy n c, m ≠ c := by
  intro m hm
  have h := walkGo_strict dx dy n c m hm
  intro he
  subst he
  rcases lt_trichotomy dx 0 with hd | hd | hd
  · exact absurd (h.2.1 hd) (lt_irrefl _)
  · rcases lt_trichotomy dy 0 with he2 | he2 | he2
    · exact absurd (h.2.2.2 he2) (lt_irrefl _)
    · exact hdir ⟨hd, he2⟩
    · exact absurd (h.2.2.1 he2) (lt_irrefl _)
  · exact absurd (h.1 hd) (lt_irrefl _)

/-! ## Move-computation lemmas -/

lemma rayDests_subset (p : Piece) (b : Board) (xs : List Location) :
    ∀ l ∈ rayDests p b xs, l ∈ xs := by
  induction xs with
  | nil => simp [rayDests]
  | cons d rest ih =>
    intro l hl
    simp only [rayDests] at hl
    rcases hg : b.get d with _ | q <;> simp only [hg] at hl
    · rcases List.mem_cons.mp hl with h | h
      · exact h ▸ List.mem_cons_self d rest
      · exact List.mem_cons_of_mem d (ih l h)
    · by_cases hc : q.color = p.color
      · simp [hc] at hl
      · simp only [if_neg hc] at hl
        rcases List.mem_cons.mp hl with h | h
        · exact h ▸ List.mem_cons_self d rest
        · exact List.mem_cons_of_mem d (ih l h)

/-- Every strategy in the movement table has a nonzero direction vector. -/
lemma strategies_dir (p : Piece) (f : Location) (s : WalkStrategy)
    (hs : s ∈ p.strategies f) : ¬(s.dx = 0 ∧ s.dy = 0) := by
  rcases p with ⟨tpe, color⟩
  cases tpe <;>
    simp only [Piece.strategies, Piece.strategies_pawn, WalkStrategy.new] at hs
  case Pawn =>
    cases color <;> simp only at hs <;> split at hs <;>
      simp only [List.mem_singleton] at hs <;> subst hs <;> decide
  all_goals (fin_cases hs <;> decide)

/-- Membership in `valid_moves` implies membership in the underlying walk. -/
lemma valid_moves_mem_walk (p : Piece) (b : Board) (f l : Location)
    (hl : l ∈ p.valid_moves b f) :
    ∃ s ∈ p.strategies f, l ∈ walkGo s.dx s.dy s.max_steps f := by
  rcases List.mem_flatMap.mp hl with ⟨s, hs, hmem⟩
  exact ⟨s, hs, rayDests_subset p b _ l hmem⟩

/-- Every move produced by `valid_moves` from an in-bounds square is in bounds
and distinct from the origin. -/
lemma valid_moves_spec (p : Piece) (b : Board) (f : Location)
    (hx : f.x < 8) (hy : f.y < 8) :
    ∀ l ∈ p.valid_moves b f, (l.x < 8 ∧ l.y < 8) ∧ l ≠ f := by
  intro l hl
  rcases valid_moves_mem_walk p b f l hl with ⟨s, hs, hw⟩
  exact ⟨walkGo_bounds s.dx s.dy s.max_steps f hx hy l hw,
    walkGo_ne s.dx s.dy s.max_steps f (strategies_dir p f s hs) l hw⟩

/-! ## Step elimination lemmas -/

lemma step_of_get_none (b : Board) (f t : Location) (h : b.get f = none) :
    b.step f t = (Except.error (MoveError.emptySource f), b) := by
  unfold Board.step
  rw [h]

lemma step_of_mem (b : Board) (f t : Location) (p : Piece)
    (hg : b.get f = some p) (hmem : t ∈ p.valid_moves b f) :
    b.step f t = (Except.ok (), (b.set f none).set t (some p)) := by
  have hany : (p.valid_moves b f).any (fun dest => dest == t) = true := by
    simp only [List.any_eq_true, beq_iff_eq]
    exact ⟨t, hmem, rfl⟩
  simp [Board.step, hg, hany]

lemma step_of_not_mem (b : Board) (f t : Location) (p : Piece)
    (hg : b.get f = some p) (hmem : t ∉ p.valid_moves b f) :
    b.step f t = (Except.error MoveError.illegalDestination, b) := by
  have hany : (p.valid_moves b f).any (fun dest => dest == t) = false := by
    simp only [List.any_eq_false, beq_iff_eq]
    intro x hx he
    exact hmem (he ▸ hx)
  simp [Board.step, hg, hany]

/-- A successful step exposes the moved piece and the resulting board. -/
lemma step_ok_elim (b : Board) (f t : Location)
    (h : (b.step f t).1 = Except.ok ()) :
    ∃ p, b.get f = some p ∧ t ∈ p.valid_moves b f ∧
      (b.step f t).2 = (b.set f none).set t (some p) := by
  rcases hg : b.get f with _ | p
  · rw [step_of_get_none b f t hg] at h
    exact absurd h (by simp)
  · by_cases hmem : t ∈ p.valid_moves b f
    · exact ⟨p, rfl, hmem, by rw [step_of_mem b f t p hg hmem]⟩
    · rw [step_of_not_mem b f t p hg hmem] at h
      exact absurd h (by simp)

/-! ## Board access and serialization lemmas -/

lemma Location.ne_iff (a b : Location) : a ≠ b ↔ ¬(a.x = b.x ∧ a.y = b.y) := by
  cases a; cases b
  simp [Location.mk.injEq]

lemma Board.cells_set (b : Board) (l : Location) (v : Option Piece) (yy xx : Fin 8) :
    (b.set l v).cells yy xx =
      if (xx : Nat) = l.x ∧ (yy : Nat) = l.y then v else b.cells yy xx := rfl

lemma Board.get_eq (b : Board) (l : Location) (h1 : l.x < 8) (h2 : l.y < 8) :
    b.get l = b.cells ⟨l.y, h2⟩ ⟨l.x, h1⟩ := by
  simp [Board.get, h1, h2]

lemma board_cells_length (b : Board) : (board_cells b).length = 64 := rfl

lemma board_cells_getD (b : Board) (i j : Fin 8) :
    (board_cells b).getD (8 * (i : Nat) + (j : Nat)) "" = cell_as_str (b.cells i j) := by
  fin_cases i <;> fin_cases j <;> rfl

/-! ## Claim theorems -/

/-- C3: from every in-bounds origin, a walk with direction `(dx, dy)` and
budget `max_steps` yields at most `max_steps` coordinates, each one the
previous coordinate (the origin for the first) offset by `(dx, dy)`, every
yielded coordinate has both components in `0..=7`, and the walk stops before
any step that would leave the grid. -/
theorem walk_generator_spec (s : WalkStrategy) (x y : Nat)
    (hx : x < 8) (hy : y < 8) :
    ((s.to_walk ⟨x, y⟩).run).length ≤ s.max_steps
    ∧ List.Chain (stepRel s.dx s.dy) ⟨x, y⟩ ((s.to_walk ⟨x, y⟩).run)
    ∧ ∀ m ∈ (s.to_walk ⟨x, y⟩).run, m.x < 8 ∧ m.y < 8 :=
  ⟨walkGo_length s.dx s.dy s.max_steps ⟨x, y⟩,
   walkGo_chain s.dx s.dy s.max_steps ⟨x, y⟩,
   walkGo_bounds s.dx s.dy s.max_steps ⟨x, y⟩ hx hy⟩

/-- Witness for C3 at the pawn double-step strategy from (0, 1). -/
theorem walk_generator_spec_witness :
    0 < 8 ∧ 1 < 8 ∧
    ((((WalkStrategy.new 0 1 2).to_walk ⟨0, 1⟩).run).length ≤ (WalkStrategy.new 0 1 2).max_steps
    ∧ List.Chain (stepRel (WalkStrategy.new 0 1 2).dx (WalkStrategy.new 0 1 2).dy) ⟨0, 1⟩
        (((WalkStrategy.new 0 1 2).to_walk ⟨0, 1⟩).run)
    ∧ ∀ m ∈ ((WalkStrategy.new 0 1 2).to_walk ⟨0, 1⟩).run, m.x < 8 ∧ m.y < 8) :=
  ⟨by decide, by decide, walk_generator_spec (WalkStrategy.new 0 1 2) 0 1 (by decide) (by decide)⟩

/-- C1 (failing-input evaluation): on a board whose only pieces are a White
Rook at (0, 0) and a Black Pawn at (0, 3), the square (0, 3) is the first
occupied square on the upward ray from the rook, it holds an opposite-color
piece, and the rook's `valid_moves` nevertheless also contains (0, 4) — a
square strictly beyond the first occupied square — because the source never
breaks the ray after pushing a capture square. -/
theorem rook_ray_passes_capture :
    c1Board.get ⟨0, 1⟩ = none
    ∧ c1Board.get ⟨0, 2⟩ = none
    ∧ c1Board.get ⟨0, 3⟩ = some ⟨PieceType.Pawn, Color.Black⟩
    ∧ Location.mk 0 3 ∈ (Piece.mk PieceType.Rook Color.White).valid_moves c1Board ⟨0, 0⟩
    ∧ Location.mk 0 4 ∈ (Piece.mk PieceType.Rook Color.White).valid_moves c1Board ⟨0, 0⟩ := by
  decide

/-- C4: the serialized board is a 64-element sequence in row-major order (the
entry for rank `i`, file `j` sits at index `8 * i + j`), each entry the empty
marker for an empty cell and otherwise the color letter (`w`/`b`) followed by
the type letter (`P`/`B`/`N`/`R`/`Q`/`K`) of the occupant. -/
theorem board_serialization_spec (b : Board) :
    (board_cells b).length = 64
    ∧ (∀ i j : Fin 8,
        (board_cells b).getD (8 * (i : Nat) + (j : Nat)) "" = cell_as_str (b.cells i j))
    ∧ cell_as_str none = ""
    ∧ (∀ p : Piece, cell_as_str (some p) = color_letter p.color ++ type_letter p.tpe)
    ∧ board_as_str b = String.intercalate "," (board_cells b) := by
  refine ⟨board_cells_length b, board_cells_getD b, rfl, ?_, rfl⟩
  intro p
  rcases p with ⟨tpe, color⟩
  cases tpe <;> cases color <;> rfl

/-- C2: `Board::step` fails with the empty-source error exactly when the
origin is empty; with a piece at the origin it fails with the
illegal-destination error exactly when `to` is not among that piece's valid
moves; and on any error the board is returned unchanged. -/
theorem step_error_spec (b : Board) (f t : Location)
    (hf : f.inBounds) (ht : t.inBounds) :
    ((b.step f t).1 = Except.error (MoveError.emptySource f) ↔ b.get f = none)
    ∧ (∀ p, b.get f = some p →
        ((b.step f t).1 = Except.error MoveError.illegalDestination ↔
          t ∉ p.valid_moves b f))
    ∧ (∀ e, (b.step f t).1 = Except.error e → (b.step f t).2 = b) := by
  rcases hg : b.get f with _ | p
  · rw [step_of_get_none b f t hg]
    simp
  · by_cases hmem : t ∈ p.valid_moves b f
    · rw [step_of_mem b f t p hg hmem]
      refine ⟨by simp, ?_, by simp⟩
      rintro p2 hp2
      injection hp2 with hp2
      subst hp2
      simp [hmem]
    · rw [step_of_not_mem b f t p hg hmem]
      refine ⟨by simp, ?_, fun e _ => rfl⟩
      rintro p2 hp2
      injection hp2 with hp2
      subst hp2
      simp [hmem]

/-- Witness for C2 on the initial board: (4, 4) is empty, (0, 0) in bounds. -/
theorem step_error_spec_witness :
    (Location.mk 4 4).inBounds ∧ (Location.mk 0 0).inBounds ∧
    (((Board.new.step ⟨4, 4⟩ ⟨0, 0⟩).1 = Except.error (MoveError.emptySource ⟨4, 4⟩) ↔
        Board.new.get ⟨4, 4⟩ = none)
    ∧ (∀ p, Board.new.get ⟨4, 4⟩ = some p →
        ((Board.new.step ⟨4, 4⟩ ⟨0, 0⟩).1 = Except.error MoveError.illegalDestination ↔
          Location.mk 0 0 ∉ p.valid_moves Board.new ⟨4, 4⟩))
    ∧ (∀ e, (Board.new.step ⟨4, 4⟩ ⟨0, 0⟩).1 = Except.error e →
        (Board.new.step ⟨4, 4⟩ ⟨0, 0⟩).2 = Board.new)) :=
  ⟨by decide, by decide,
   step_error_spec Board.new ⟨4, 4⟩ ⟨0, 0⟩ (by decide) (by decide)⟩

/-- C9: from an in-bounds origin, every destination returned by `valid_moves`
is in bounds and distinct from the origin, and a move from a square to itself
is always rejected by `Board::step`. -/
theorem valid_moves_safety (p : Piece) (b : Board) (f : Location)
    (hf : f.inBounds) :
    (∀ l ∈ p.valid_moves b f, l.inBounds ∧ l ≠ f)
    ∧ (b.step f f).1 ≠ Except.ok () := by
  refine ⟨fun l hl => valid_moves_spec p b f hf.1 hf.2 l hl, fun hok => ?_⟩
  rcases step_ok_elim b f f hok with ⟨q, _, hmem, _⟩
  exact (valid_moves_spec q b f hf.1 hf.2 f hmem).2 rfl

/-- Witness for C9: the White Rook of the initial board at (0, 0). -/
theorem valid_moves_safety_witness :
    (Location.mk 0 0).inBounds ∧
    ((∀ l ∈ (Piece.mk PieceType.Rook Color.White).valid_moves Board.new ⟨0, 0⟩,
        l.inBounds ∧ l ≠ ⟨0, 0⟩)
    ∧ (Board.new.step ⟨0, 0⟩ ⟨0, 0⟩).1 ≠ Except.ok ()) :=
  ⟨by decide,
   valid_moves_safety (Piece.mk PieceType.Rook Color.White) Board.new ⟨0, 0⟩ (by decide)⟩

/-- The walk of the White pawn double-step strategy from rank 1. -/
lemma pawn_walk (x : Nat) : walkGo 0 1 2 ⟨x, 1⟩ = [⟨x, 2⟩, ⟨x, 3⟩] := by
  have h0 : ((x : Int) + 0).toNat = x := by omega
  simp [walkGo, h0]

/-- C6 counterexample: a White pawn on rank 1 whose forward square holds an
opposite-color piece does NOT have 0 legal destinations — the code treats the
occupied forward square as a capture and keeps walking, yielding 2 moves. -/
theorem pawn_blocked_by_enemy_not_zero :
    c6Board.get ⟨0, 1⟩ = some ⟨PieceType.Pawn, Color.White⟩
    ∧ (c6Board.get ⟨0, 2⟩).isSome = true
    ∧ ¬(((Piece.mk PieceType.Pawn Color.White).valid_moves c6Board ⟨0, 1⟩).length = 0)
    ∧ ((Piece.mk PieceType.Pawn Color.White).valid_moves c6Board ⟨0, 1⟩).length = 2 := by
  decide

/-- C6 (amended): a White pawn on rank 1 has exactly 2 destinations when both
squares ahead are empty, and exactly 0 destinations when the square directly
ahead is occupied by a piece of its own color. -/
theorem pawn_start_moves (b : Board) (x : Nat) (hx : x < 8)
    (hpawn : b.get ⟨x, 1⟩ = some ⟨PieceType.Pawn, Color.White⟩) :
    (b.get ⟨x, 2⟩ = none → b.get ⟨x, 3⟩ = none →
      ((Piece.mk PieceType.Pawn Color.White).valid_moves b ⟨x, 1⟩).length = 2)
    ∧ (∀ q, b.get ⟨x, 2⟩ = some q → q.color = Color.White →
      ((Piece.mk PieceType.Pawn Color.White).valid_moves b ⟨x, 1⟩).length = 0) := by
  have hvm : (Piece.mk PieceType.Pawn Color.White).valid_moves b ⟨x, 1⟩
      = rayDests (Piece.mk PieceType.Pawn Color.White) b [⟨x, 2⟩, ⟨x, 3⟩] := by
    unfold Piece.valid_moves
    have hs : (Piece.mk PieceType.Pawn Color.White).strategies ⟨x, 1⟩
        = [WalkStrategy.new 0 1 2] := rfl
    rw [hs]
    simp only [List.flatMap_cons, List.flatMap_nil, List.append_nil]
    rw [show ((WalkStrategy.new 0 1 2).to_walk ⟨x, 1⟩).run = walkGo 0 1 2 ⟨x, 1⟩ from rfl,
      pawn_walk x]
  constructor
  · intro h2 h3
    rw [hvm]
    simp [rayDests, h2, h3]
  · intro q hq hqc
    rw [hvm]
    simp [rayDests, hq, hqc]

/-- Witness for the amended C6 on a board holding only the pawn. -/
theorem pawn_start_moves_witness :
    0 < 8
    ∧ c6WitnessBoard.get ⟨0, 1⟩ = some ⟨PieceType.Pawn, Color.White⟩
    ∧ ((Piece.mk PieceType.Pawn Color.White).valid_moves c6WitnessBoard ⟨0, 1⟩).length = 2 :=
  ⟨by decide, by decide,
   (pawn_start_moves c6WitnessBoard 0 (by decide) (by decide)).1 (by decide) (by decide)⟩

/-- C7: on a board empty except for the knight itself, the knight has exactly
8 destinations from any interior square (both coordinates in `2..=5`, so that
every L-shaped offset stays on the board) and exactly 2 destinations from any
corner square. -/
theorem knight_move_counts (c : Color) :
    (∀ x y : Nat, 2 ≤ x → x ≤ 5 → 2 ≤ y → y ≤ 5 →
      ((Piece.mk PieceType.Knight c).valid_moves (knightBoard c x y) ⟨x, y⟩).length = 8)
    ∧ (∀ f ∈ [Location.mk 0 0, Location.mk 0 7, Location.mk 7 0, Location.mk 7 7],
      ((Piece.mk PieceType.Knight c).valid_moves (knightBoard c f.x f.y) f).length = 2) := by
  constructor
  · intro x y hx2 hx5 hy2 hy5
    cases c <;> (interval_cases x <;> interval_cases y <;> decide)
  · intro f hf
    cases c <;> (fin_cases hf <;> decide)

/-- Witness for C7 at an interior square and a corner. -/
theorem knight_move_counts_witness :
    ((Piece.mk PieceType.Knight Color.White).valid_moves
      (knightBoard Color.White 3 3) ⟨3, 3⟩).length = 8
    ∧ ((Piece.mk PieceType.Knight Color.White).valid_moves
      (knightBoard Color.White 0 0) ⟨0, 0⟩).length = 2 :=
  ⟨(knight_move_counts Color.White).1 3 3 (by decide) (by decide) (by decide) (by decide),
   (knight_move_counts Color.White).2 ⟨0, 0⟩ (by decide)⟩

/-- C8 (failing-input evaluation): `location_from_string` derives
`file = n % 8` and `rank = n / 8`, but the input `"64"` — outside `0..63` —
is NOT rejected: it parses as a `u8` and produces the out-of-range coordinate
(0, 8), which `get_from_to` hands to the core unchecked. -/
theorem location_parser_accepts_out_of_range :
    location_from_string "64" = some ⟨0, 8⟩
    ∧ ¬(Location.mk 0 8).inBounds
    ∧ get_from_to [("from", "64"), ("to", "0")] = some (⟨0, 8⟩, ⟨0, 0⟩)
    ∧ location_from_string "10" = some ⟨2, 1⟩ := by
  decide

/-- Cell-level description of the board after a successful step: the
destination holds the moved piece, the source is empty, everything else is as
before. -/
lemma cells_after_step (b : Board) (f t : Location) (p : Piece)
    (h : (b.step f t).2 = (b.set f none).set t (some p))
    (yv xv : Nat) (hyv : yv < 8) (hxv : xv < 8) :
    ((b.step f t).2).cells ⟨yv, hyv⟩ ⟨xv, hxv⟩ =
      if xv = t.x ∧ yv = t.y then some p
      else if xv = f.x ∧ yv = f.y then none
      else b.cells ⟨yv, hyv⟩ ⟨xv, hxv⟩ := by
  rw [h]
  rfl

/-- C5: for an accepted move the serialization changes in exactly two entries:
the source entry becomes the empty marker, the destination entry becomes the
code previously at the source, and the other 62 entries are unchanged. -/
theorem step_serialization_frame (b : Board) (f t : Location)
    (hf : f.inBounds) (ht : t.inBounds)
    (hok : (b.step f t).1 = Except.ok ()) :
    (board_cells (b.step f t).2).getD (8 * f.y + f.x) "" = ""
    ∧ (board_cells (b.step f t).2).getD (8 * t.y + t.x) ""
        = (board_cells b).getD (8 * f.y + f.x) ""
    ∧ ∀ i j : Fin 8, ¬((j : Nat) = f.x ∧ (i : Nat) = f.y) →
        ¬((j : Nat) = t.x ∧ (i : Nat) = t.y) →
        (board_cells (b.step f t).2).getD (8 * (i : Nat) + (j : Nat)) ""
          = (board_cells b).getD (8 * (i : Nat) + (j : Nat)) "" := by
  obtain ⟨p, hg, hmem, hb2⟩ := step_ok_elim b f t hok
  have hne : t ≠ f := (valid_moves_spec p b f hf.1 hf.2 t hmem).2
  have hneF : ¬(f.x = t.x ∧ f.y = t.y) := fun hcon =>
    (Location.ne_iff t f).mp hne ⟨hcon.1.symm, hcon.2.symm⟩
  have hbf : b.cells ⟨f.y, hf.2⟩ ⟨f.x, hf.1⟩ = some p := by
    rw [← Board.get_eq b f hf.1 hf.2]
    exact hg
  refine ⟨?_, ?_, ?_⟩
  · have e1 : (board_cells (b.step f t).2).getD (8 * f.y + f.x) ""
        = cell_as_str (((b.step f t).2).cells ⟨f.y, hf.2⟩ ⟨f.x, hf.1⟩) :=
      board_cells_getD (b.step f t).2 ⟨f.y, hf.2⟩ ⟨f.x, hf.1⟩
    rw [e1, cells_after_step b f t p hb2 f.y f.x hf.2 hf.1, if_neg hneF,
      if_pos ⟨rfl, rfl⟩]
    rfl
  · have e2 : (board_cells (b.step f t).2).getD (8 * t.y + t.x) ""
        = cell_as_str (((b.step f t).2).cells ⟨t.y, ht.2⟩ ⟨t.x, ht.1⟩) :=
      board_cells_getD (b.step f t).2 ⟨t.y, ht.2⟩ ⟨t.x, ht.1⟩
    have e3 : (board_cells b).getD (8 * f.y + f.x) ""
        = cell_as_str (b.cells ⟨f.y, hf.2⟩ ⟨f.x, hf.1⟩) :=
      board_cells_getD b ⟨f.y, hf.2⟩ ⟨f.x, hf.1⟩
    rw [e2, e3, cells_after_step b f t p hb2 t.y t.x ht.2 ht.1, if_pos ⟨rfl, rfl⟩, hbf]
  · rintro ⟨iv, hiv⟩ ⟨jv, hjv⟩ hn1 hn2
    have e4 : (board_cells (b.step f t).2).getD (8 * iv + jv) ""
        = cell_as_str (((b.step f t).2).cells ⟨iv, hiv⟩ ⟨jv, hjv⟩) :=
      board_cells_getD (b.step f t).2 ⟨iv, hiv⟩ ⟨jv, hjv⟩
    have e5 : (board_cells b).getD (8 * iv + jv) ""
        = cell_as_str (b.cells ⟨iv, hiv⟩ ⟨jv, hjv⟩) :=
      board_cells_getD b ⟨iv, hiv⟩ ⟨jv, hjv⟩
    rw [e4, e5, cells_after_step b f t p hb2 iv jv hiv hjv, if_neg hn2, if_neg hn1]

/-- Witness for C5: the initial board's pawn double-step a2 to a4. -/
theorem step_serialization_frame_witness :
    (Location.mk 0 1).inBounds ∧ (Location.mk 0 3).inBounds
    ∧ (Board.new.step ⟨0, 1⟩ ⟨0, 3⟩).1 = Except.ok ()
    ∧ ((board_cells (Board.new.step ⟨0, 1⟩ ⟨0, 3⟩).2).getD (8 * 1 + 0) "" = ""
    ∧ (board_cells (Board.new.step ⟨0, 1⟩ ⟨0, 3⟩).2).getD (8 * 3 + 0) ""
        = (board_cells Board.new).getD (8 * 1 + 0) ""
    ∧ ∀ i j : Fin 8, ¬((j : Nat) = 0 ∧ (i : Nat) = 1) →
        ¬((j : Nat) = 0 ∧ (i : Nat) = 3) →
        (board_cells (Board.new.step ⟨0, 1⟩ ⟨0, 3⟩).2).getD (8 * (i : Nat) + (j : Nat)) ""
          = (board_cells Board.new).getD (8 * (i : Nat) + (j : Nat)) "") :=
  ⟨by decide, by decide, by decide,
   step_serialization_frame Board.new ⟨0, 1⟩ ⟨0, 3⟩ (by decide) (by decide) (by decide)⟩

/-- C10: a successful step moves exactly the source piece to the destination;
the number of occupied cells never increases — it drops by one on a capture
and is unchanged otherwise. -/
theorem step_capture_count (b : Board) (f t : Location)
    (hf : f.inBounds) (ht : t.inBounds)
    (hok : (b.step f t).1 = Except.ok ()) :
    (b.step f t).2.get t = b.get f
    ∧ countOccupied (b.step f t).2 ≤ countOccupied b
    ∧ ((b.get t).isSome = true → countOccupied (b.step f t).2 + 1 = countOccupied b)
    ∧ (b.get t = none → countOccupied (b.step f t).2 = countOccupied b) := by
  obtain ⟨p, hg, hmem, hb2⟩ := step_ok_elim b f t hok
  have hne : t ≠ f := (valid_moves_spec p b f hf.1 hf.2 t hmem).2
  have hneF : ¬(f.x = t.x ∧ f.y = t.y) := fun hcon =>
    (Location.ne_iff t f).mp hne ⟨hcon.1.symm, hcon.2.symm⟩
  have hbf : b.cells ⟨f.y, hf.2⟩ ⟨f.x, hf.1⟩ = some p := by
    rw [← Board.get_eq b f hf.1 hf.2]
    exact hg
  set fq : Fin 8 × Fin 8 := (⟨f.y, hf.2⟩, ⟨f.x, hf.1⟩) with hfqdef
  set tq : Fin 8 × Fin 8 := (⟨t.y, ht.2⟩, ⟨t.x, ht.1⟩) with htqdef
  have hfq_ne_tq : fq ≠ tq := by
    intro hcon
    rw [hfqdef, htqdef, Prod.ext_iff] at hcon
    exact hneF ⟨congrArg Fin.val hcon.2, congrArg Fin.val hcon.1⟩
  have hI1 : occInd (b.step f t).2 tq = 1 := by
    show (if (((b.step f t).2).cells ⟨t.y, ht.2⟩ ⟨t.x, ht.1⟩).isSome then 1 else 0) = 1
    rw [cells_after_step b f t p hb2 t.y t.x ht.2 ht.1,
      if_pos (show t.x = t.x ∧ t.y = t.y from ⟨rfl, rfl⟩)]
    rfl
  have hI2 : occInd (b.step f t).2 fq = 0 := by
    show (if (((b.step f t).2).cells ⟨f.y, hf.2⟩ ⟨f.x, hf.1⟩).isSome then 1 else 0) = 0
    rw [cells_after_step b f t p hb2 f.y f.x hf.2 hf.1, if_neg hneF,
      if_pos (show f.x = f.x ∧ f.y = f.y from ⟨rfl, rfl⟩)]
    rfl
  have hI3 : occInd b fq = 1 := by
    show (if (b.cells ⟨f.y, hf.2⟩ ⟨f.x, hf.1⟩).isSome then 1 else 0) = 1
    rw [hbf]
    rfl
  have hI4 : occInd b tq = if (b.get t).isSome then 1 else 0 := by
    show (if (b.cells ⟨t.y, ht.2⟩ ⟨t.x, ht.1⟩).isSome then 1 else 0) = _
    rw [← Board.get_eq b t ht.1 ht.2]
  have hS : Finset.sum ((Finset.univ.erase fq).erase tq) (occInd (b.step f t).2)
      = Finset.sum ((Finset.univ.erase fq).erase tq) (occInd b) := by
    refine Finset.sum_congr rfl ?_
    rintro ⟨⟨iv, hiv⟩, ⟨jv, hjv⟩⟩ hq
    rcases Finset.mem_erase.mp hq with ⟨hqt, hq2⟩
    rcases Finset.mem_erase.mp hq2 with ⟨hqf, _⟩
    have hct : ¬(jv = t.x ∧ iv = t.y) := by
      intro hcon
      refine hqt ?_
      rw [htqdef, Prod.ext_iff]
      exact ⟨Fin.ext hcon.2, Fin.ext hcon.1⟩
    have hcf : ¬(jv = f.x ∧ iv = f.y) := by
      intro hcon
      refine hqf ?_
      rw [hfqdef, Prod.ext_iff]
      exact ⟨Fin.ext hcon.2, Fin.ext hcon.1⟩
    show (if (((b.step f t).2).cells ⟨iv, hiv⟩ ⟨jv, hjv⟩).isSome then 1 else 0)
      = (if (b.cells ⟨iv, hiv⟩ ⟨jv, hjv⟩).isSome then 1 else 0)
    rw [cells_after_step b f t p hb2 iv jv hiv hjv, if_neg hct, if_neg hcf]
  have hsplit : ∀ g : Fin 8 × Fin 8 → Nat, Finset.univ.sum g
      = g fq + (g tq + Finset.sum ((Finset.univ.erase fq).erase tq) g) := by
    intro g
    rw [← Finset.add_sum_erase Finset.univ g (Finset.mem_univ fq),
      ← Finset.add_sum_erase (Finset.univ.erase fq) g
        (Finset.mem_erase.mpr ⟨fun hcon => hfq_ne_tq hcon.symm, Finset.mem_univ tq⟩)]
  have key : countOccupied (b.step f t).2 + (if (b.get t).isSome then 1 else 0)
      = countOccupied b := by
    unfold countOccupied
    rw [hsplit (occInd (b.step f t).2), hsplit (occInd b), hI1, hI2, hI3, hI4, hS]
    cases hcase : (b.get t).isSome <;> simp [hcase] <;> omega
  refine ⟨?_, ?_, ?_, ?_⟩
  · rw [Board.get_eq (b.step f t).2 t ht.1 ht.2,
      cells_after_step b f t p hb2 t.y t.x ht.2 ht.1, if_pos ⟨rfl, rfl⟩, hg]
  · cases hcase : (b.get t).isSome <;> rw [hcase] at key <;> simp at key <;> omega
  · intro hcase
    rw [hcase] at key
    simp at key
    omega
  · intro hcase
    have hfalse : (b.get t).isSome = false := by rw [hcase]; rfl
    rw [hfalse] at key
    simp at key
    omega

/-- Witness for C10: the initial board's pawn double-step a2 to a4 (no
capture). -/
theorem step_capture_count_witness :
    (Location.mk 0 1).inBounds ∧ (Location.mk 0 3).inBounds
    ∧ (Board.new.step ⟨0, 1⟩ ⟨0, 3⟩).1 = Except.ok ()
    ∧ ((Board.new.step ⟨0, 1⟩ ⟨0, 3⟩).2.get ⟨0, 3⟩ = Board.new.get ⟨0, 1⟩
    ∧ countOccupied (Board.new.step ⟨0, 1⟩ ⟨0, 3⟩).2 ≤ countOccupied Board.new
    ∧ ((Board.new.get ⟨0, 3⟩).isSome = true →
        countOccupied (Board.new.step ⟨0, 1⟩ ⟨0, 3⟩).2 + 1 = countOccupied Board.new)
    ∧ (Board.new.get ⟨0, 3⟩ = none →
        countOccupied (Board.new.step ⟨0, 1⟩ ⟨0, 3⟩).2 = countOccupied Board.new)) :=
  ⟨by decide, by decide, by decide,
   step_capture_count Board.new ⟨0, 1⟩ ⟨0, 3⟩ (by decide) (by decide) (by decide)⟩
